import Mathlib

/-!
Shallow embedding of `src/utils/plastic_route.py` (EcoVision waste-collection
route planner) and proofs about it.

The embedding follows the Python source:
* `haversine` is the great-circle distance over the reals.
* `optimize_route` is the greedy nearest-neighbor loop, with Python list
  indexing (negative indices allowed, `IndexError` out of range), the
  `float("inf")` initial minimum modelled as `⊤ : WithTop D`, and the raw
  `start_index` value stored in the `visited` list exactly as the code does.
* `cluster_hotspots` / `generate_collection_routes` model the clustering
  pipeline; the sklearn `KMeans` internals are not part of the repository and
  are modelled from the specification where noted.

Exceptions are modelled by `Except PyError`; machine floats are modelled by
`ℝ` (for the trigonometric distance) and by `ℚ` (for the dataframe
coordinates, on which all arithmetic in the clusterer is exact).
-/

namespace EcoVision

/-- Errors surfaced by the embedded code: `indexError` and `typeError` are the
Python exceptions the route code can raise; `invalidParameter` is the
spec-level validation error of the clusterer. -/
inductive PyError where
  | indexError
  | typeError
  | invalidParameter
deriving DecidableEq, Repr

/-- Python list indexing `points[i]`: a nonnegative index must be `< len`,
a negative index `i` with `-len ≤ i` reads `points[len + i]`; anything else
raises `IndexError` (modelled as `none`). -/
def pyGet {P : Type} (points : List P) (i : ℤ) : Option P :=
  if 0 ≤ i ∧ i < points.length then points.get? i.toNat
  else if -(points.length : ℤ) ≤ i ∧ i < 0 then points.get? ((points.length : ℤ) + i).toNat
  else none

/-- The body of `for i, p in enumerate(points)` in `optimize_route`:
scan the remaining points `l` whose first element has index `i`, skipping
indices already in `visited`, and keep the running `(min_dist, next_idx)`
accumulator, updating it whenever a strictly smaller distance from `last`
is found.  `min_dist` lives in `WithTop D`, with `⊤` playing the role of
Python's `float("inf")`. -/
def selectLoop {P D : Type} [LinearOrder D] (dist : P → P → D) (visited : List ℤ)
    (last : P) : List P → ℕ → WithTop D × Option ℕ → WithTop D × Option ℕ
  | [], _, acc => acc
  | p :: rest, i, (min_dist, next_idx) =>
    if (i : ℤ) ∈ visited then
      selectLoop dist visited last rest (i + 1) (min_dist, next_idx)
    else if (dist last p : WithTop D) < min_dist then
      selectLoop dist visited last rest (i + 1) ((dist last p : WithTop D), some i)
    else
      selectLoop dist visited last rest (i + 1) (min_dist, next_idx)

/-- One full scan of the `for` loop of `optimize_route`, returning the chosen
`next_idx` (Python's `None` is `none`). -/
def selectNext {P D : Type} [LinearOrder D] (dist : P → P → D) (points : List P)
    (visited : List ℤ) (last : P) : Option ℕ :=
  (selectLoop dist visited last points 0 (⊤, none)).2

/-- The `while len(visited) < len(points)` loop of `optimize_route`.  Each
iteration reads the last stop, scans for the nearest unvisited point, and
appends it to both `visited` and `route`.  The fuel argument is
`len(points)` at the top call, which is enough for the loop to reach its
exit condition, so the fuel-exhausted branch returns the route exactly as
the Python loop would. -/
def greedyLoop {P D : Type} [LinearOrder D] (dist : P → P → D) (points : List P) :
    ℕ → List ℤ → List P → Except PyError (List P)
  | 0, _, route => .ok route
  | fuel + 1, visited, route =>
    if visited.length < points.length then
      match route.getLast? with
      | none => .error .typeError
      | some last =>
        match selectNext dist points visited last with
        | none => .error .typeError
        | some j =>
          match points.get? j with
          | none => .error .indexError
          | some p => greedyLoop dist points fuel (visited ++ [(j : ℤ)]) (route ++ [p])
    else .ok route

/-- `optimize_route(points, start_index=0)` from the source, generic in the
distance function the loop calls: return `[]` on empty input, otherwise
start from `points[start_index]` (Python indexing) and run the greedy loop. -/
def optimizeRoute {P D : Type} [LinearOrder D] (dist : P → P → D) (points : List P)
    (start_index : ℤ) : Except PyError (List P) :=
  if points.length = 0 then .ok []
  else
    match pyGet points start_index with
    | none => .error .indexError
    | some p => greedyLoop dist points points.length [start_index] [p]

/-- Degree-to-radian conversion used by `haversine` via `math.radians`. -/
noncomputable def radians (x : ℝ) : ℝ := x * (Real.pi / 180)

/-- `haversine(lat1, lon1, lat2, lon2)` from the source: great-circle
distance in kilometres on a sphere of radius 6371. -/
noncomputable def haversine (lat1 lon1 lat2 lon2 : ℝ) : ℝ :=
  let lon1r := radians lon1
  let lat1r := radians lat1
  let lon2r := radians lon2
  let lat2r := radians lat2
  let dlon := lon2r - lon1r
  let dlat := lat2r - lat1r
  let a := Real.sin (dlat / 2) ^ 2 +
    Real.cos lat1r * Real.cos lat2r * Real.sin (dlon / 2) ^ 2
  let c := 2 * Real.arcsin (Real.sqrt a)
  6371 * c

/-- The distance function `optimize_route` actually calls:
`haversine(last[0], last[1], p[0], p[1])` on coordinate pairs. -/
noncomputable def havDist (a b : ℝ × ℝ) : ℝ := haversine a.1 a.2 b.1 b.2

/-- `optimize_route` as called in the source: greedy nearest-neighbor on
coordinate pairs with the haversine distance. -/
noncomputable def optimize_route (points : List (ℝ × ℝ)) (start_index : ℤ := 0) :
    Except PyError (List (ℝ × ℝ)) :=
  optimizeRoute havDist points start_index

/-- Unfolding lemma for `haversine`. -/
theorem haversine_def (lat1 lon1 lat2 lon2 : ℝ) :
    haversine lat1 lon1 lat2 lon2 =
      6371 * (2 * Real.arcsin (Real.sqrt
        (Real.sin ((radians lat2 - radians lat1) / 2) ^ 2 +
          Real.cos (radians lat1) * Real.cos (radians lat2) *
            Real.sin ((radians lon2 - radians lon1) / 2) ^ 2))) := rfl

/-- The haversine formula is symmetric in its two points. -/
theorem haversine_comm (lat1 lon1 lat2 lon2 : ℝ) :
    haversine lat1 lon1 lat2 lon2 = haversine lat2 lon2 lat1 lon1 := by
  rw [haversine_def, haversine_def]
  have hlat : radians lat1 - radians lat2 = -(radians lat2 - radians lat1) := by ring
  have hlon : radians lon1 - radians lon2 = -(radians lon2 - radians lon1) := by ring
  rw [hlat, hlon, neg_div, neg_div, Real.sin_neg, Real.sin_neg, neg_sq, neg_sq,
    mul_comm (Real.cos (radians lat2)) (Real.cos (radians lat1))]

/-- The haversine distance from a point to itself is zero. -/
theorem haversine_self (lat lon : ℝ) : haversine lat lon lat lon = 0 := by
  rw [haversine_def]
  simp

section SelectLoopSpec

variable {P D : Type} [LinearOrder D] (dist : P → P → D) (visited : List ℤ) (last : P)

/-- Characterization of one scan of the `for` loop: starting from accumulator
`(md, nx)` on the suffix `l` whose head has index `i`, either no eligible
point beats `md` and the accumulator is returned unchanged, or the result is
the distance and absolute index of the first eligible point attaining the
minimum distance (strictly below `md`). -/
theorem selectLoop_spec :
    ∀ (l : List P) (i : ℕ) (md : WithTop D) (nx : Option ℕ),
      (selectLoop dist visited last l i (md, nx) = (md, nx) ∧
        ∀ m p, l.get? m = some p → ((i + m : ℕ) : ℤ) ∉ visited →
          md ≤ (dist last p : WithTop D)) ∨
      (∃ m p, l.get? m = some p ∧ ((i + m : ℕ) : ℤ) ∉ visited ∧
        (dist last p : WithTop D) < md ∧
        selectLoop dist visited last l i (md, nx) =
          ((dist last p : WithTop D), some (i + m)) ∧
        (∀ m' p', l.get? m' = some p' → ((i + m' : ℕ) : ℤ) ∉ visited →
          dist last p ≤ dist last p') ∧
        (∀ m' p', l.get? m' = some p' → ((i + m' : ℕ) : ℤ) ∉ visited →
          dist last p' = dist last p → m ≤ m')) := by
  intro l
  induction l with
  | nil =>
    intro i md nx
    left
    exact ⟨rfl, fun m p hm => by simp at hm⟩
  | cons q rest ih =>
    intro i md nx
    by_cases hvis : (i : ℤ) ∈ visited
    · have heq : selectLoop dist visited last (q :: rest) i (md, nx)
          = selectLoop dist visited last rest (i + 1) (md, nx) := by
        simp [selectLoop, hvis]
      rcases ih (i + 1) md nx with ⟨h1, h2⟩ | ⟨m, p, hget, hmem, hlt, hres, hmin, htie⟩
      · left
        refine ⟨heq.trans h1, ?_⟩
        intro m p hm hnm
        match m with
        | 0 => exact absurd (by simpa using hvis) (by simpa using hnm)
        | Nat.succ m' =>
          have hidx : i + (m' + 1) = (i + 1) + m' := by omega
          rw [hidx] at hnm
          exact h2 m' p (by simpa using hm) hnm
      · right
        have hidx : (i + 1) + m = i + (m + 1) := by omega
        rw [hidx] at hmem hres
        refine ⟨m + 1, p, by simpa using hget, hmem, hlt, heq.trans hres, ?_, ?_⟩
        · intro m' p' hm' hnm'
          match m' with
          | 0 => exact absurd (by simpa using hvis) (by simpa using hnm')
          | Nat.succ m'' =>
            have hidx' : i + (m'' + 1) = (i + 1) + m'' := by omega
            rw [hidx'] at hnm'
            exact hmin m'' p' (by simpa using hm') hnm'
        · intro m' p' hm' hnm' hd
          match m' with
          | 0 => exact absurd (by simpa using hvis) (by simpa using hnm')
          | Nat.succ m'' =>
            have hidx' : i + (m'' + 1) = (i + 1) + m'' := by omega
            rw [hidx'] at hnm'
            exact Nat.succ_le_succ (htie m'' p' (by simpa using hm') hnm' hd)
    · by_cases hlt0 : (dist last q : WithTop D) < md
      · have heq : selectLoop dist visited last (q :: rest) i (md, nx)
            = selectLoop dist visited last rest (i + 1)
                ((dist last q : WithTop D), some i) := by
          simp [selectLoop, hvis, hlt0]
        rcases ih (i + 1) ((dist last q : WithTop D)) (some i) with
          ⟨h1, h2⟩ | ⟨m, p, hget, hmem, hlt, hres, hmin, htie⟩
        · right
          refine ⟨0, q, by simp, by simpa using hvis, hlt0, ?_, ?_, ?_⟩
          · rw [heq, h1]
            simp
          · intro m' p' hm' hnm'
            match m' with
            | 0 =>
              have hq : q = p' := by simpa using hm'
              simp [← hq]
            | Nat.succ m'' =>
              have hidx' : i + (m'' + 1) = (i + 1) + m'' := by omega
              rw [hidx'] at hnm'
              exact WithTop.coe_le_coe.mp (h2 m'' p' (by simpa using hm') hnm')
          · intro m' p' _ _ _
            exact Nat.zero_le m'
        · right
          have hidx : (i + 1) + m = i + (m + 1) := by omega
          rw [hidx] at hmem hres
          refine ⟨m + 1, p, by simpa using hget, hmem, hlt.trans hlt0,
            heq.trans hres, ?_, ?_⟩
          · intro m' p' hm' hnm'
            match m' with
            | 0 =>
              have hq : q = p' := by simpa using hm'
              subst hq
              exact le_of_lt (WithTop.coe_lt_coe.mp hlt)
            | Nat.succ m'' =>
              have hidx' : i + (m'' + 1) = (i + 1) + m'' := by omega
              rw [hidx'] at hnm'
              exact hmin m'' p' (by simpa using hm') hnm'
          · intro m' p' hm' hnm' hd
            match m' with
            | 0 =>
              have hq : q = p' := by simpa using hm'
              subst hq
              have : (dist last p : WithTop D) < (dist last p : WithTop D) := by
                rw [hd] at hlt
                exact hlt
              exact absurd this (lt_irrefl _)
            | Nat.succ m'' =>
              have hidx' : i + (m'' + 1) = (i + 1) + m'' := by omega
              rw [hidx'] at hnm'
              exact Nat.succ_le_succ (htie m'' p' (by simpa using hm') hnm' hd)
      · have hle0 : md ≤ (dist last q : WithTop D) := le_of_not_lt hlt0
        have heq : selectLoop dist visited last (q :: rest) i (md, nx)
            = selectLoop dist visited last rest (i + 1) (md, nx) := by
          simp [selectLoop, hvis, hlt0]
        rcases ih (i + 1) md nx with ⟨h1, h2⟩ | ⟨m, p, hget, hmem, hlt, hres, hmin, htie⟩
        · left
          refine ⟨heq.trans h1, ?_⟩
          intro m p hm hnm
          match m with
          | 0 =>
            have hq : q = p := by simpa using hm
            rw [← hq]
            exact hle0
          | Nat.succ m' =>
            have hidx : i + (m' + 1) = (i + 1) + m' := by omega
            rw [hidx] at hnm
            exact h2 m' p (by simpa using hm) hnm
        · right
          have hidx : (i + 1) + m = i + (m + 1) := by omega
          rw [hidx] at hmem hres
          refine ⟨m + 1, p, by simpa using hget, hmem, hlt, heq.trans hres, ?_, ?_⟩
          · intro m' p' hm' hnm'
            match m' with
            | 0 =>
              have hq : q = p' := by simpa using hm'
              subst hq
              exact WithTop.coe_le_coe.mp (le_of_lt (lt_of_lt_of_le hlt hle0))
            | Nat.succ m'' =>
              have hidx' : i + (m'' + 1) = (i + 1) + m'' := by omega
              rw [hidx'] at hnm'
              exact hmin m'' p' (by simpa using hm') hnm'
          · intro m' p' hm' hnm' hd
            match m' with
            | 0 =>
              have hq : q = p' := by simpa using hm'
              subst hq
              have hcontra : (dist last p : WithTop D) < md := hlt
              rw [← hd] at hcontra
              exact absurd (lt_of_lt_of_le hcontra hle0) (lt_irrefl _)
            | Nat.succ m'' =>
              have hidx' : i + (m'' + 1) = (i + 1) + m'' := by omega
              rw [hidx'] at hnm'
              exact Nat.succ_le_succ (htie m'' p' (by simpa using hm') hnm' hd)

end SelectLoopSpec

/-- When some index `< points.length` is unvisited, the scan returns `some j`
with `j` an unvisited in-range index of minimum distance from `last`, ties
broken by the lowest index. -/
theorem selectNext_spec {P D : Type} [LinearOrder D] (dist : P → P → D)
    (points : List P) (visited : List ℤ) (last : P)
    (hex : ∃ j, j < points.length ∧ ((j : ℕ) : ℤ) ∉ visited) :
    ∃ j p, selectNext dist points visited last = some j ∧
      points.get? j = some p ∧ ((j : ℕ) : ℤ) ∉ visited ∧
      (∀ i q, points.get? i = some q → ((i : ℕ) : ℤ) ∉ visited →
        dist last p ≤ dist last q) ∧
      (∀ i q, points.get? i = some q → ((i : ℕ) : ℤ) ∉ visited →
        dist last q = dist last p → j ≤ i) := by
  rcases selectLoop_spec dist visited last points 0 ⊤ none with
    ⟨_, h2⟩ | ⟨m, p, hget, hmem, _, hres, hmin, htie⟩
  · obtain ⟨j, hj, hjv⟩ := hex
    have hgj : points.get? j = some (points.get ⟨j, hj⟩) := List.get?_eq_get hj
    have := h2 j (points.get ⟨j, hj⟩) hgj (by simpa using hjv)
    simp [top_le_iff] at this
  · refine ⟨m, p, ?_, hget, by simpa using hmem, ?_, ?_⟩
    · unfold selectNext
      rw [hres]
      simp
    · intro i q hi hiv
      exact hmin i q hi (by simpa using hiv)
    · intro i q hi hiv hd
      exact htie i q hi (by simpa using hiv) hd

/-- Pigeonhole: fewer visited entries than points means some in-range index
is unvisited. -/
theorem exists_unvisited {P : Type} (points : List P) (visited : List ℤ)
    (hnd : visited.Nodup) (hlen : visited.length < points.length) :
    ∃ j, j < points.length ∧ ((j : ℕ) : ℤ) ∉ visited := by
  by_contra hcon
  push_neg at hcon
  have hsub : (List.range points.length).map (fun n : ℕ => (n : ℤ)) ⊆ visited := by
    intro x hx
    simp only [List.mem_map, List.mem_range] at hx
    obtain ⟨n, hn, rfl⟩ := hx
    exact hcon n hn
  have hndr : ((List.range points.length).map (fun n : ℕ => (n : ℤ))).Nodup :=
    List.Nodup.map (fun a b h => Int.natCast_inj.mp h) (List.nodup_range _)
  have hle := (hndr.subperm hsub).length_le
  simp at hle
  omega

/-- The greedy `while` loop always terminates successfully when `visited` has
no duplicates, returning an extension of the route built so far. -/
theorem greedyLoop_ok {P D : Type} [LinearOrder D] (dist : P → P → D) (points : List P) :
    ∀ (fuel : ℕ) (visited : List ℤ) (route : List P),
      visited.Nodup → route ≠ [] →
      ∃ r, greedyLoop dist points fuel visited route = .ok r ∧ ∃ ext, r = route ++ ext := by
  intro fuel
  induction fuel with
  | zero => exact fun visited route _ _ => ⟨route, rfl, [], by simp⟩
  | succ fuel ih =>
    intro visited route hnd hne
    by_cases hlen : visited.length < points.length
    · obtain ⟨last, hlast⟩ :=
        Option.isSome_iff_exists.mp (List.getLast?_isSome.mpr hne)
      obtain ⟨j, p, hsel, hget, hjv, _, _⟩ := selectNext_spec dist points visited last
        (exists_unvisited points visited hnd hlen)
      have hstep : greedyLoop dist points (fuel + 1) visited route
          = greedyLoop dist points fuel (visited ++ [(j : ℤ)]) (route ++ [p]) := by
        simp [greedyLoop, hlen, hlast, hsel, ← List.get?_eq_getElem?, hget]
      have hnd' : (visited ++ [((j : ℕ) : ℤ)]).Nodup := by
        rw [List.nodup_append]
        exact ⟨hnd, List.nodup_singleton _, by simpa using hjv⟩
      obtain ⟨r, hr, ext, hext⟩ := ih (visited ++ [(j : ℤ)]) (route ++ [p])
        hnd' (by simp)
      exact ⟨r, hstep.trans hr, p :: ext, by simp [hext]⟩
    · exact ⟨route, by simp [greedyLoop, hlen], [], by simp⟩

/-- If every entry of `l₁` maps to the corresponding entry of `l₂` under `f`,
the mapped lists agree. -/
theorem forall₂_map_eq {α β : Type} {f : α → Option β} :
    ∀ {l₁ : List α} {l₂ : List β},
      List.Forall₂ (fun v p => f v = some p) l₁ l₂ → l₁.map f = l₂.map some := by
  intro l₁ l₂ h
  induction h with
  | nil => rfl
  | cons h _ ih => simpa [ih] using h

/-- Reading every position of a list in order reproduces the list. -/
theorem map_get?_range {α : Type} :
    ∀ (l : List α), (List.range l.length).map (fun n => l.get? n) = l.map some := by
  intro l
  induction l with
  | nil => rfl
  | cons a l ih =>
    have h1 : List.range (a :: l).length = 0 :: (List.range l.length).map Nat.succ :=
      List.range_succ_eq_map l.length
    rw [h1]
    simp only [List.map_cons, List.map_map]
    refine congrArg₂ _ rfl ?_
    rw [← ih]
    exact List.map_congr_left (fun n _ => rfl)

/-- Two lists whose `some`-images are permutations are themselves
permutations. -/
theorem perm_of_map_some {α : Type} {l₁ l₂ : List α}
    (h : (l₁.map some).Perm (l₂.map some)) : l₁.Perm l₂ := by
  classical
  rw [List.perm_iff_count] at h ⊢
  intro a
  have := h (some a)
  rwa [List.count_map_of_injective _ some (Option.some_injective α) a,
    List.count_map_of_injective _ some (Option.some_injective α) a] at this

/-- Invariant-carrying version of `greedyLoop_ok` for valid (nonnegative)
visited indices: the loop succeeds and the final route is indexed by a
duplicate-free list of in-range indices of full length. -/
theorem greedyLoop_perm {P D : Type} [LinearOrder D] (dist : P → P → D) (points : List P) :
    ∀ (fuel : ℕ) (visited : List ℤ) (route : List P),
      visited.Nodup →
      (∀ v ∈ visited, ∃ m : ℕ, v = (m : ℤ) ∧ m < points.length) →
      List.Forall₂ (fun (v : ℤ) p => points.get? v.toNat = some p) visited route →
      route ≠ [] →
      visited.length ≤ points.length →
      points.length ≤ fuel + visited.length →
      ∃ r visited2,
        greedyLoop dist points fuel visited route = .ok r ∧
        (∃ ext, r = route ++ ext) ∧
        visited2.Nodup ∧
        (∀ v ∈ visited2, ∃ m : ℕ, v = (m : ℤ) ∧ m < points.length) ∧
        List.Forall₂ (fun (v : ℤ) p => points.get? v.toNat = some p) visited2 r ∧
        visited2.length = points.length := by
  intro fuel
  induction fuel with
  | zero =>
    intro visited route hnd hbound hf hne hle hfuel
    exact ⟨route, visited, rfl, ⟨[], by simp⟩, hnd, hbound, hf, by omega⟩
  | succ fuel ih =>
    intro visited route hnd hbound hf hne hle hfuel
    by_cases hlen : visited.length < points.length
    · obtain ⟨last, hlast⟩ :=
        Option.isSome_iff_exists.mp (List.getLast?_isSome.mpr hne)
      obtain ⟨j, p, hsel, hget, hjv, _, _⟩ := selectNext_spec dist points visited last
        (exists_unvisited points visited hnd hlen)
      have hj : j < points.length := by
        by_contra hjn
        rw [List.get?_eq_none.mpr (by omega)] at hget
        exact Option.noConfusion hget
      have hstep : greedyLoop dist points (fuel + 1) visited route
          = greedyLoop dist points fuel (visited ++ [(j : ℤ)]) (route ++ [p]) := by
        simp [greedyLoop, hlen, hlast, hsel, ← List.get?_eq_getElem?, hget]
      have hnd' : (visited ++ [((j : ℕ) : ℤ)]).Nodup := by
        rw [List.nodup_append]
        exact ⟨hnd, List.nodup_singleton _, by simpa using hjv⟩
      have hbound' : ∀ v ∈ visited ++ [((j : ℕ) : ℤ)],
          ∃ m : ℕ, v = (m : ℤ) ∧ m < points.length := by
        intro v hv
        rcases List.mem_append.mp hv with hv | hv
        · exact hbound v hv
        · refine ⟨j, by simpa using hv, hj⟩
      have hf' : List.Forall₂ (fun (v : ℤ) p => points.get? v.toNat = some p)
          (visited ++ [((j : ℕ) : ℤ)]) (route ++ [p]) :=
        List.rel_append hf (List.Forall₂.cons (by simpa using hget) List.Forall₂.nil)
      obtain ⟨r, v2, hr, ⟨ext, hext⟩, h1, h2, h3, h4⟩ :=
        ih (visited ++ [(j : ℤ)]) (route ++ [p]) hnd' hbound' hf' (by simp)
          (by simp; omega) (by simp; omega)
      exact ⟨r, v2, hstep.trans hr, ⟨p :: ext, by simp [hext]⟩, h1, h2, h3, h4⟩
    · exact ⟨route, visited, by simp [greedyLoop, hlen], ⟨[], by simp⟩,
        hnd, hbound, hf, by omega⟩

/-- Full correctness of `optimizeRoute` for a valid nonnegative start index,
generic in the distance function: the call succeeds, and the resulting route
is a permutation of the input of the same length whose first stop is
`points[start_index]`. -/
theorem optimizeRoute_perm {P D : Type} [LinearOrder D] (dist : P → P → D)
    (points : List P) (s : ℤ) (hne : points ≠ []) (h0 : 0 ≤ s)
    (hs : s < points.length) :
    ∃ r, optimizeRoute dist points s = .ok r ∧ r.length = points.length ∧
      r.Perm points ∧ r.head? = points.get? s.toNat := by
  have hlen0 : points.length ≠ 0 := by
    simpa using (List.length_pos.mpr hne).ne'
  have hsn : s.toNat < points.length := by omega
  have hget : points.get? s.toNat = some (points.get ⟨s.toNat, hsn⟩) :=
    List.get?_eq_get hsn
  have hpy : pyGet points s = some (points.get ⟨s.toNat, hsn⟩) := by
    unfold pyGet
    rw [if_pos ⟨h0, hs⟩, hget]
  obtain ⟨r, v2, hrun, ⟨ext, hext⟩, hnd2, hbound2, hf2, hlen2⟩ :=
    greedyLoop_perm dist points points.length [s] [points.get ⟨s.toNat, hsn⟩]
      (List.nodup_singleton s)
      (fun v hv => ⟨s.toNat, by simp at hv; omega, hsn⟩)
      (List.Forall₂.cons hget List.Forall₂.nil)
      (by simp) (by simp; omega) (by omega)
  refine ⟨r, ?_, ?_, ?_, ?_⟩
  · unfold optimizeRoute
    rw [if_neg hlen0, hpy]
    exact hrun
  · rw [← hf2.length_eq, hlen2]
  · -- permutation via the index lists
    have hcast : (v2.map Int.toNat).map (fun n : ℕ => (n : ℤ)) = v2 := by
      rw [List.map_map]
      have h1 : ∀ v ∈ v2, ((Int.toNat v : ℕ) : ℤ) = id v := by
        intro v hv
        obtain ⟨m, rfl, _⟩ := hbound2 v hv
        simp
      exact (List.map_congr_left h1).trans (List.map_id v2)
    have hndN : (v2.map Int.toNat).Nodup := by
      refine List.Nodup.of_map (fun n : ℕ => (n : ℤ)) ?_
      rw [hcast]
      exact hnd2
    have hboundN : ∀ n ∈ v2.map Int.toNat, n < points.length := by
      intro n hn
      simp only [List.mem_map] at hn
      obtain ⟨v, hv, rfl⟩ := hn
      obtain ⟨m, rfl, hm⟩ := hbound2 v hv
      simpa using hm
    have hlenN : (v2.map Int.toNat).length = points.length := by
      simpa using hlen2
    have hpermN : (v2.map Int.toNat).Perm (List.range points.length) := by
      refine (hndN.subperm ?_).perm_of_length_le (by simp [hlenN])
      intro n hn
      exact List.mem_range.mpr (hboundN n hn)
    have hmapv : v2.map (fun v : ℤ => points.get? v.toNat) = r.map some :=
      forall₂_map_eq hf2
    have hmapN : (v2.map Int.toNat).map (fun n => points.get? n) = r.map some := by
      rw [List.map_map]
      exact hmapv
    have hperm : (r.map some).Perm (points.map some) := by
      rw [← map_get?_range points, ← hmapN]
      exact hpermN.map _
    exact perm_of_map_some hperm
  · rw [hext, hget]
    simp

/-- Success/failure of `optimizeRoute` as a function of the start index, for
any distance function: Python semantics accept any `start_index` in
`[-n, n-1]` and raise `IndexError` otherwise. -/
theorem optimizeRoute_index {P D : Type} [LinearOrder D] (dist : P → P → D)
    (points : List P) (s : ℤ) (hne : points ≠ []) :
    ((-(points.length : ℤ) ≤ s ∧ s < points.length) →
      ∃ r, optimizeRoute dist points s = .ok r) ∧
    ((s < -(points.length : ℤ) ∨ (points.length : ℤ) ≤ s) →
      optimizeRoute dist points s = .error .indexError) := by
  have hlen0 : points.length ≠ 0 := by
    simpa using (List.length_pos.mpr hne).ne'
  constructor
  · rintro ⟨hlo, hhi⟩
    have hpg : ∃ p, pyGet points s = some p := by
      unfold pyGet
      by_cases h0 : 0 ≤ s
      · rw [if_pos ⟨h0, hhi⟩]
        have hlt : s.toNat < points.length := by omega
        exact ⟨_, List.get?_eq_get hlt⟩
      · rw [if_neg (by omega), if_pos ⟨hlo, by omega⟩]
        have hlt : ((points.length : ℤ) + s).toNat < points.length := by omega
        exact ⟨_, List.get?_eq_get hlt⟩
    obtain ⟨p, hp⟩ := hpg
    obtain ⟨r, hr, _⟩ := greedyLoop_ok dist points points.length [s] [p]
      (List.nodup_singleton _) (by simp)
    refine ⟨r, ?_⟩
    unfold optimizeRoute
    rw [if_neg hlen0, hp]
    exact hr
  · intro hout
    unfold optimizeRoute
    rw [if_neg hlen0]
    have hnone : pyGet points s = none := by
      unfold pyGet
      rw [if_neg (by omega), if_neg (by omega)]
    rw [hnone]

/-- C1: for every non-empty list of points and valid `start_index` with
`0 ≤ start_index < n`, `optimize_route` succeeds and returns a route of
length `n` that is a permutation of the input whose first element is the
point at `start_index`. -/
theorem c1_route_is_permutation (points : List (ℝ × ℝ)) (s : ℤ)
    (hne : points ≠ []) (h0 : 0 ≤ s) (hs : s < points.length) :
    ∃ r, optimize_route points s = .ok r ∧ r.length = points.length ∧
      r.Perm points ∧ r.head? = points.get? s.toNat :=
  optimizeRoute_perm havDist points s hne h0 hs

/-- Witness for C1 at a concrete two-point input with start index 0. -/
theorem c1_witness :
    ∃ r, optimize_route [((0 : ℝ), (0 : ℝ)), ((1 : ℝ), (1 : ℝ))] 0 = Except.ok r ∧
      r.length = [((0 : ℝ), (0 : ℝ)), ((1 : ℝ), (1 : ℝ))].length ∧
      r.Perm [((0 : ℝ), (0 : ℝ)), ((1 : ℝ), (1 : ℝ))] ∧
      r.head? = [((0 : ℝ), (0 : ℝ)), ((1 : ℝ), (1 : ℝ))].get? (0 : ℤ).toNat :=
  c1_route_is_permutation [((0 : ℝ), (0 : ℝ)), ((1 : ℝ), (1 : ℝ))] 0
    (by simp) (by norm_num) (by simp)

/-- C2: at every step of the greedy loop of `optimize_route`, the point
appended next is an unvisited point of minimum haversine distance from the
last stop, ties broken by the lowest original index, and the loop proceeds
by appending exactly that point. -/
theorem c2_greedy_step (points route : List (ℝ × ℝ)) (visited : List ℤ)
    (last : ℝ × ℝ) (fuel : ℕ) (hnd : visited.Nodup)
    (hlen : visited.length < points.length)
    (hlast : route.getLast? = some last) :
    ∃ j p, selectNext havDist points visited last = some j ∧
      points.get? j = some p ∧ ((j : ℕ) : ℤ) ∉ visited ∧
      (∀ i q, points.get? i = some q → ((i : ℕ) : ℤ) ∉ visited →
        havDist last p ≤ havDist last q) ∧
      (∀ i q, points.get? i = some q → ((i : ℕ) : ℤ) ∉ visited →
        havDist last q = havDist last p → j ≤ i) ∧
      greedyLoop havDist points (fuel + 1) visited route =
        greedyLoop havDist points fuel (visited ++ [(j : ℤ)]) (route ++ [p]) := by
  obtain ⟨j, p, hsel, hget, hjv, hmin, htie⟩ :=
    selectNext_spec havDist points visited last
      (exists_unvisited points visited hnd hlen)
  refine ⟨j, p, hsel, hget, hjv, hmin, htie, ?_⟩
  simp [greedyLoop, hlen, hlast, hsel, ← List.get?_eq_getElem?, hget]

/-- Witness for C2 at a concrete one-point state. -/
theorem c2_witness :
    ∃ j p, selectNext havDist [((0 : ℝ), (0 : ℝ))] [] ((0 : ℝ), (0 : ℝ)) = some j ∧
      [((0 : ℝ), (0 : ℝ))].get? j = some p ∧ ((j : ℕ) : ℤ) ∉ ([] : List ℤ) ∧
      (∀ i q, [((0 : ℝ), (0 : ℝ))].get? i = some q → ((i : ℕ) : ℤ) ∉ ([] : List ℤ) →
        havDist ((0 : ℝ), (0 : ℝ)) p ≤ havDist ((0 : ℝ), (0 : ℝ)) q) ∧
      (∀ i q, [((0 : ℝ), (0 : ℝ))].get? i = some q → ((i : ℕ) : ℤ) ∉ ([] : List ℤ) →
        havDist ((0 : ℝ), (0 : ℝ)) q = havDist ((0 : ℝ), (0 : ℝ)) p → j ≤ i) ∧
      greedyLoop havDist [((0 : ℝ), (0 : ℝ))] (0 + 1) [] [((0 : ℝ), (0 : ℝ))] =
        greedyLoop havDist [((0 : ℝ), (0 : ℝ))] 0 ([] ++ [(j : ℤ)])
          ([((0 : ℝ), (0 : ℝ))] ++ [p]) :=
  c2_greedy_step [((0 : ℝ), (0 : ℝ))] [((0 : ℝ), (0 : ℝ))] [] ((0 : ℝ), (0 : ℝ)) 0
    List.nodup_nil (by simp) (by simp)

/-- C5 counterexample: with one point and `start_index = 1` (out of bounds),
`optimize_route` raises `IndexError`, which is not the `InvalidParameter`
error the claim requires. -/
theorem c5_counterexample :
    optimize_route [((0 : ℝ), (0 : ℝ))] 1 = Except.error PyError.indexError ∧
      PyError.indexError ≠ PyError.invalidParameter := by
  constructor
  · simp [optimize_route, optimizeRoute, pyGet]
  · decide

/-- C5 (amended): `optimize_route` performs no validation of `start_index`
and never raises `InvalidParameter`: on a non-empty list it succeeds for
every `start_index` in `[-n, n-1]` (negative Python indices included) and
raises `IndexError` outside that range; `start_index` defaults to `0`. -/
theorem c5_start_index_behavior (points : List (ℝ × ℝ)) (s : ℤ)
    (hne : points ≠ []) :
    ((-(points.length : ℤ) ≤ s ∧ s < points.length) →
      ∃ r, optimize_route points s = .ok r) ∧
    ((s < -(points.length : ℤ) ∨ (points.length : ℤ) ≤ s) →
      optimize_route points s = .error .indexError) ∧
    optimize_route points = optimize_route points 0 :=
  ⟨(optimizeRoute_index havDist points s hne).1,
    (optimizeRoute_index havDist points s hne).2, rfl⟩

/-- Witness for the amended C5 at a concrete input: `start_index = 2` on a
one-point list raises `IndexError`. -/
theorem c5_witness :
    optimize_route [((0 : ℝ), (0 : ℝ))] 2 = Except.error PyError.indexError :=
  (c5_start_index_behavior [((0 : ℝ), (0 : ℝ))] 2 (by simp)).2.1 (by norm_num)

/-- The caller-visible state of the pandas dataframe: the coordinate rows
(`Latitude`, `Longitude`) and the `"Cluster"` column when present.
Coordinates are modelled as rationals (every Python float is one), which
keeps the clusterer's arithmetic exact and computable. -/
structure DataFrame where
  rows : List (ℚ × ℚ)
  cluster : Option (List ℕ)
deriving DecidableEq, Repr

/-- Squared Euclidean distance in raw coordinate space, the metric the
clusterer uses (deliberately not the haversine distance). -/
def sqDist (a b : ℚ × ℚ) : ℚ := (a.1 - b.1) ^ 2 + (a.2 - b.2) ^ 2

/-- Scan of the remaining centroids during label assignment, keeping the
index of the closest one seen so far (ties keep the earlier index). -/
def assignGo (p : ℚ × ℚ) : List (ℚ × ℚ) → ℕ → ℚ → ℕ → ℕ
  | [], _, _, bestj => bestj
  | c :: rest, i, bestd, bestj =>
    if sqDist p c < bestd then assignGo p rest (i + 1) (sqDist p c) i
    else assignGo p rest (i + 1) bestd bestj

/-- Index of the centroid nearest to `p`, ties broken by the lowest cluster
index. -/
def assignLabel (cents : List (ℚ × ℚ)) (p : ℚ × ℚ) : ℕ :=
  match cents with
  | [] => 0
  | c :: rest => assignGo p rest 1 (sqDist p c) 0

/-- Arithmetic mean of a cluster's members; an empty cluster keeps its old
centroid. -/
def meanPoint (old : ℚ × ℚ) (ps : List (ℚ × ℚ)) : ℚ × ℚ :=
  if ps.length = 0 then old
  else ((ps.map Prod.fst).sum / (ps.length : ℚ), (ps.map Prod.snd).sum / (ps.length : ℚ))

/-- One Lloyd iteration: assign every point to its nearest centroid, then
recompute each centroid as the mean of its assigned points. -/
def lloydStep (coords : List (ℚ × ℚ)) (cents : List (ℚ × ℚ)) :
    List ℕ × List (ℚ × ℚ) :=
  (coords.map (assignLabel cents),
    (List.range cents.length).map (fun j =>
      meanPoint (cents.getD j (0, 0))
        (((coords.zip (coords.map (assignLabel cents))).filter
          (fun pl => pl.2 == j)).map Prod.fst)))

/-- Iterate Lloyd steps until no point changes cluster or the iteration cap
runs out. -/
def lloydLoop (coords : List (ℚ × ℚ)) : ℕ → List (ℚ × ℚ) → Option (List ℕ) →
    List ℕ × List (ℚ × ℚ)
  | 0, cents, _ => (coords.map (assignLabel cents), cents)
  | fuel + 1, cents, prev =>
    if some (lloydStep coords cents).1 = prev then ((lloydStep coords cents).1, cents)
    else lloydLoop coords fuel (lloydStep coords cents).2 (some (lloydStep coords cents).1)

/-- Modelled from the spec: `sklearn.cluster.KMeans(...).fit_predict` and
`cluster_centers_` are library code, not part of this repository.  Spec §4.2
describes the clusterer: Lloyd's algorithm on raw `(lat, lon)` pairs with
squared Euclidean distance, ties to the lowest cluster index, deterministic
seeding under the fixed seed (modelled as taking the first `k` points), an
iteration cap (300, sklearn's default), and an `InvalidParameter` failure
exactly when `k < 1`, `k > n`, or the input point set is empty. -/
def kmeansFitPredict (coords : List (ℚ × ℚ)) (k : ℕ) :
    Except PyError (List ℕ × List (ℚ × ℚ)) :=
  if k < 1 ∨ coords.length < k then .error .invalidParameter
  else .ok (lloydLoop coords 300 (coords.take k) none)

/-- `cluster_hotspots(df, ...)` from the source: run KMeans on the coordinate
columns, then assign the `"Cluster"` column on the caller's dataframe (the
in-place mutation `df["Cluster"] = kmeans.fit_predict(coords)`, modelled by
state passing) and return the dataframe together with the centers. -/
def cluster_hotspots (df : DataFrame) (n_clusters : ℕ) :
    Except PyError (DataFrame × List (ℚ × ℚ)) :=
  match kmeansFitPredict df.rows n_clusters with
  | .error e => .error e
  | .ok (labels, centers) => .ok ({ df with cluster := some labels }, centers)

/-- The label list always has one label per input row. -/
theorem lloydLoop_labels_length (coords : List (ℚ × ℚ)) :
    ∀ (fuel : ℕ) (cents : List (ℚ × ℚ)) (prev : Option (List ℕ)),
      (lloydLoop coords fuel cents prev).1.length = coords.length := by
  intro fuel
  induction fuel with
  | zero => intro cents prev; simp [lloydLoop]
  | succ fuel ih =>
    intro cents prev
    rw [lloydLoop]
    by_cases h : some (lloydStep coords cents).1 = prev
    · rw [if_pos h]
      simp [lloydStep]
    · rw [if_neg h]
      exact ih _ _

/-- On invalid parameters, `cluster_hotspots` fails with `InvalidParameter`. -/
theorem cluster_hotspots_error (df : DataFrame) (k : ℕ)
    (hg : k < 1 ∨ df.rows.length < k) :
    cluster_hotspots df k = .error .invalidParameter := by
  unfold cluster_hotspots kmeansFitPredict
  rw [if_pos hg]

/-- On valid parameters, `cluster_hotspots` succeeds, attaching the label
column to the dataframe. -/
theorem cluster_hotspots_ok (df : DataFrame) (k : ℕ)
    (hg : ¬(k < 1 ∨ df.rows.length < k)) :
    cluster_hotspots df k =
      .ok ({ df with cluster := some (lloydLoop df.rows 300 (df.rows.take k) none).1 },
        (lloydLoop df.rows 300 (df.rows.take k) none).2) := by
  unfold cluster_hotspots kmeansFitPredict
  rw [if_neg hg]

/-- C4: the clusterer fails with an `InvalidParameter` error exactly when
`n_clusters > n`, `n_clusters < 1`, or the input point set is empty, and it
succeeds exactly when `1 ≤ n_clusters ≤ n` (which forces a non-empty
input). -/
theorem c4_cluster_validation (df : DataFrame) (k : ℕ) :
    (cluster_hotspots df k = .error .invalidParameter ↔
      (df.rows.length < k ∨ k < 1 ∨ df.rows.length = 0)) ∧
    ((∃ out, cluster_hotspots df k = .ok out) ↔
      (1 ≤ k ∧ k ≤ df.rows.length)) := by
  by_cases hg : k < 1 ∨ df.rows.length < k
  · rw [cluster_hotspots_error df k hg]
    constructor
    · exact ⟨fun _ => by omega, fun _ => rfl⟩
    · constructor
      · rintro ⟨out, hout⟩
        exact Except.noConfusion hout
      · intro hk
        omega
  · rw [cluster_hotspots_ok df k hg]
    constructor
    · constructor
      · intro h
        exact Except.noConfusion h
      · intro h
        omega
    · exact ⟨fun _ => by omega, fun _ => ⟨_, rfl⟩⟩

/-- Witness for C4 at concrete inputs: `k = 2` on one row fails with
`InvalidParameter`, while `k = 1` on one row succeeds. -/
theorem c4_witness :
    cluster_hotspots ⟨[((0 : ℚ), (0 : ℚ))], none⟩ 2 =
        Except.error PyError.invalidParameter ∧
      ∃ out, cluster_hotspots ⟨[((0 : ℚ), (0 : ℚ))], none⟩ 1 = Except.ok out :=
  ⟨(c4_cluster_validation ⟨[((0 : ℚ), (0 : ℚ))], none⟩ 2).1.mpr (by norm_num),
    (c4_cluster_validation ⟨[((0 : ℚ), (0 : ℚ))], none⟩ 1).2.mpr (by norm_num)⟩

/-- Concrete evaluation of one Lloyd step on the one-row dataframe used by
the witnesses below. -/
theorem lloydStep_eval :
    lloydStep [((0 : ℚ), (0 : ℚ))] [((0 : ℚ), (0 : ℚ))] = ([0], [((0 : ℚ), (0 : ℚ))]) := by
  norm_num [lloydStep, assignLabel, assignGo, meanPoint, List.range_succ,
    List.filter, Prod.ext_iff]

/-- Concrete evaluation of the full Lloyd iteration on the one-row
dataframe: it converges after one step. -/
theorem lloydLoop_eval :
    lloydLoop [((0 : ℚ), (0 : ℚ))] 300 [((0 : ℚ), (0 : ℚ))] none
      = ([0], [((0 : ℚ), (0 : ℚ))]) := by
  have h1 : (300 : ℕ) = 299 + 1 := rfl
  have h2 : (299 : ℕ) = 298 + 1 := rfl
  rw [h1, lloydLoop, lloydStep_eval]
  simp only [reduceCtorEq, if_false]
  rw [h2, lloydLoop, lloydStep_eval]
  simp

/-- Concrete evaluation of `cluster_hotspots` on the one-row dataframe. -/
theorem cluster_hotspots_eval :
    cluster_hotspots ⟨[((0 : ℚ), (0 : ℚ))], none⟩ 1 =
      Except.ok (⟨[((0 : ℚ), (0 : ℚ))], some [0]⟩, [((0 : ℚ), (0 : ℚ))]) := by
  rw [cluster_hotspots_ok ⟨[((0 : ℚ), (0 : ℚ))], none⟩ 1 (by norm_num)]
  rw [show (⟨[((0 : ℚ), (0 : ℚ))], none⟩ : DataFrame).rows = [((0 : ℚ), (0 : ℚ))] from rfl]
  rw [show [((0 : ℚ), (0 : ℚ))].take 1 = [((0 : ℚ), (0 : ℚ))] from rfl, lloydLoop_eval]

/-- C6 counterexample: at a concrete one-row dataframe, `cluster_hotspots`
returns a dataframe that differs from the caller's input (the `"Cluster"`
column has been added), so it does not leave the input dataframe
unchanged. -/
theorem c6_counterexample :
    cluster_hotspots ⟨[((0 : ℚ), (0 : ℚ))], none⟩ 1 =
      Except.ok (⟨[((0 : ℚ), (0 : ℚ))], some [0]⟩, [((0 : ℚ), (0 : ℚ))]) ∧
    (⟨[((0 : ℚ), (0 : ℚ))], some [0]⟩ : DataFrame) ≠ ⟨[((0 : ℚ), (0 : ℚ))], none⟩ := by
  constructor
  · exact cluster_hotspots_eval
  · intro h
    exact Option.noConfusion (congrArg DataFrame.cluster h)

/-- C6 (amended): `cluster_hotspots` mutates the caller's dataframe, but
only by setting the `"Cluster"` column: the coordinate rows are unchanged
and the new column is a label list with one entry per row.  (As a Lean
function of the dataframe, seed, and `k` it is otherwise pure.) -/
theorem c6_frame_condition (df : DataFrame) (k : ℕ) (dfc : DataFrame)
    (centers : List (ℚ × ℚ)) (h : cluster_hotspots df k = .ok (dfc, centers)) :
    dfc.rows = df.rows ∧
      ∃ ls, dfc.cluster = some ls ∧ ls.length = df.rows.length := by
  by_cases hg : k < 1 ∨ df.rows.length < k
  · rw [cluster_hotspots_error df k hg] at h
    exact Except.noConfusion h
  · rw [cluster_hotspots_ok df k hg] at h
    have h2 := Except.ok.inj h
    have hdfc : dfc = { df with
        cluster := some (lloydLoop df.rows 300 (df.rows.take k) none).1 } :=
      (congrArg Prod.fst h2).symm
    subst hdfc
    exact ⟨rfl, _, rfl, lloydLoop_labels_length df.rows 300 _ none⟩

/-- Witness for the amended C6 at the concrete one-row dataframe. -/
theorem c6_witness :
    (⟨[((0 : ℚ), (0 : ℚ))], some [0]⟩ : DataFrame).rows = [((0 : ℚ), (0 : ℚ))] ∧
      ∃ ls, (⟨[((0 : ℚ), (0 : ℚ))], some [0]⟩ : DataFrame).cluster = some ls ∧
        ls.length = [((0 : ℚ), (0 : ℚ))].length :=
  c6_frame_condition ⟨[((0 : ℚ), (0 : ℚ))], none⟩ 1
    ⟨[((0 : ℚ), (0 : ℚ))], some [0]⟩ [((0 : ℚ), (0 : ℚ))] cluster_hotspots_eval

/-- `sorted(df_clustered["Cluster"].unique())` from the source: the distinct
cluster ids in ascending order. -/
def sortedUnique (labels : List ℕ) : List ℕ :=
  List.insertionSort (· ≤ ·) labels.dedup

/-- The dictionary key `"Cluster_" + str(cluster_id)`. -/
def clusterKey (cid : ℕ) : String := "Cluster_" ++ toString cid

/-- The member list of cluster `cid`: the rows whose label equals `cid`, in
original input order (`df_clustered[df_clustered["Cluster"] == cid]`). -/
def clusterMembers (rows : List (ℚ × ℚ)) (labels : List ℕ) (cid : ℕ) :
    List (ℚ × ℚ) :=
  ((rows.zip labels).filter (fun rl => rl.2 == cid)).map Prod.fst

/-- The haversine distance applied to the dataframe's coordinate pairs. -/
noncomputable def havDistQ (a b : ℚ × ℚ) : ℝ :=
  haversine (a.1 : ℝ) (a.2 : ℝ) (b.1 : ℝ) (b.2 : ℝ)

/-- `generate_collection_routes(df, ...)` from the source: cluster the
dataframe, then for each distinct cluster id in ascending order run
`optimize_route` with the default `start_index = 0` on that cluster's member
list, collecting `(key, route)` pairs in iteration order. -/
noncomputable def generate_collection_routes (df : DataFrame) (n_clusters : ℕ) :
    Except PyError (List (String × List (ℚ × ℚ))) := do
  let dc ← cluster_hotspots df n_clusters
  let labels := dc.1.cluster.getD []
  (sortedUnique labels).mapM (fun cid => do
    let route ← optimizeRoute havDistQ (clusterMembers dc.1.rows labels cid) 0
    pure (clusterKey cid, route))

/-- `mapM` over `Except` succeeds when the function succeeds on every
element, producing the elementwise results. -/
theorem mapM_ok_of_forall {α β : Type} (f : α → Except PyError β) :
    ∀ (l : List α), (∀ a ∈ l, ∃ b, f a = .ok b) →
      ∃ l2, l.mapM f = .ok l2 ∧ List.Forall₂ (fun a b => f a = .ok b) l l2 := by
  intro l
  induction l with
  | nil => exact fun _ => ⟨[], rfl, List.Forall₂.nil⟩
  | cons a l ih =>
    intro h
    obtain ⟨b, hb⟩ := h a (by simp)
    obtain ⟨l2, hl2, hf⟩ := ih (fun x hx => h x (by simp [hx]))
    refine ⟨b :: l2, ?_, List.Forall₂.cons hb hf⟩
    rw [List.mapM_cons, hb, hl2]
    rfl

/-- A label occurring in `labels` pairs with some row in the zip. -/
theorem exists_row_of_mem_labels :
    ∀ (rows : List (ℚ × ℚ)) (labels : List ℕ) (cid : ℕ),
      rows.length = labels.length → cid ∈ labels →
      ∃ r, (r, cid) ∈ rows.zip labels := by
  intro rows
  induction rows with
  | nil =>
    intro labels cid hlen hmem
    cases labels with
    | nil => simp at hmem
    | cons b bs => simp at hlen
  | cons a as ih =>
    intro labels cid hlen hmem
    cases labels with
    | nil => simp at hmem
    | cons b bs =>
      rcases List.mem_cons.mp hmem with rfl | hmem2
      · exact ⟨a, by simp⟩
      · obtain ⟨r, hr⟩ := ih bs cid (by simpa using hlen) hmem2
        exact ⟨r, by simp [hr]⟩

/-- Clusters that appear among the labels have non-empty member lists. -/
theorem clusterMembers_ne_nil (rows : List (ℚ × ℚ)) (labels : List ℕ) (cid : ℕ)
    (hlen : rows.length = labels.length) (hmem : cid ∈ labels) :
    clusterMembers rows labels cid ≠ [] := by
  obtain ⟨r, hr⟩ := exists_row_of_mem_labels rows labels cid hlen hmem
  intro hnil
  have hmemf : (r, cid) ∈ (rows.zip labels).filter (fun rl => rl.2 == cid) :=
    List.mem_filter.mpr ⟨hr, by simp⟩
  have : r ∈ clusterMembers rows labels cid :=
    List.mem_map_of_mem Prod.fst hmemf
  rw [hnil] at this
  simp at this

/-- The distinct-id list is strictly ascending. -/
theorem sortedUnique_sorted (labels : List ℕ) :
    (sortedUnique labels).Sorted (· < ·) := by
  have h1 : (sortedUnique labels).Sorted (· ≤ ·) :=
    List.sorted_insertionSort _ _
  have h2 : (sortedUnique labels).Nodup :=
    (List.perm_insertionSort _ labels.dedup).nodup_iff.mpr labels.nodup_dedup
  exact h1.lt_of_le h2

/-- The distinct-id list has the same members as the label column. -/
theorem mem_sortedUnique (labels : List ℕ) (c : ℕ) :
    c ∈ sortedUnique labels ↔ c ∈ labels := by
  unfold sortedUnique
  rw [(List.perm_insertionSort _ labels.dedup).mem_iff]
  exact List.mem_dedup

/-- C3: whenever clustering succeeds, `generate_collection_routes` iterates
over the distinct cluster ids in ascending order and produces exactly one
entry per id, keyed by the cluster label, whose value is the Route Builder's
output with `start_index = 0` on that cluster's member list (taken in
original input order). -/
theorem c3_orchestrator (df : DataFrame) (k : ℕ) (dfc : DataFrame)
    (centers : List (ℚ × ℚ)) (h : cluster_hotspots df k = .ok (dfc, centers)) :
    ∃ labels routes,
      dfc.cluster = some labels ∧
      generate_collection_routes df k = .ok routes ∧
      (sortedUnique labels).Sorted (· < ·) ∧
      (∀ c, c ∈ sortedUnique labels ↔ c ∈ labels) ∧
      List.Forall₂ (fun cid entry =>
        ∃ r, optimizeRoute havDistQ (clusterMembers dfc.rows labels cid) 0 = .ok r ∧
          entry = (clusterKey cid, r))
        (sortedUnique labels) routes := by
  by_cases hg : k < 1 ∨ df.rows.length < k
  · rw [cluster_hotspots_error df k hg] at h
    exact Except.noConfusion h
  · rw [cluster_hotspots_ok df k hg] at h
    have h2 := Except.ok.inj h
    have hdfc : dfc = { df with
        cluster := some (lloydLoop df.rows 300 (df.rows.take k) none).1 } :=
      (congrArg Prod.fst h2).symm
    subst hdfc
    have hlen : df.rows.length
        = (lloydLoop df.rows 300 (df.rows.take k) none).1.length :=
      (lloydLoop_labels_length df.rows 300 _ none).symm
    have hsucc : ∀ cid ∈ sortedUnique (lloydLoop df.rows 300 (df.rows.take k) none).1,
        ∃ b, (do
          let route ← optimizeRoute havDistQ (clusterMembers df.rows
            (lloydLoop df.rows 300 (df.rows.take k) none).1 cid) 0
          pure (clusterKey cid, route) : Except PyError (String × List (ℚ × ℚ)))
            = .ok b := by
      intro cid hcid
      have hne : clusterMembers df.rows
          (lloydLoop df.rows 300 (df.rows.take k) none).1 cid ≠ [] :=
        clusterMembers_ne_nil _ _ cid hlen ((mem_sortedUnique _ cid).mp hcid)
      have hlenpos : 0 < (clusterMembers df.rows
          (lloydLoop df.rows 300 (df.rows.take k) none).1 cid).length :=
        List.length_pos.mpr hne
      obtain ⟨r, hr⟩ := (optimizeRoute_index havDistQ _ 0 hne).1
        ⟨by omega, by exact_mod_cast hlenpos⟩
      exact ⟨(clusterKey cid, r), by rw [hr]; rfl⟩
    obtain ⟨routes, hmapM, hf⟩ := mapM_ok_of_forall _ _ hsucc
    refine ⟨_, routes, rfl, ?_, sortedUnique_sorted _,
      fun c => mem_sortedUnique _ c, ?_⟩
    · unfold generate_collection_routes
      rw [cluster_hotspots_ok df k hg]
      exact hmapM
    · refine hf.imp ?_
      intro cid entry hentry
      rcases hopt : optimizeRoute havDistQ (clusterMembers df.rows
          (lloydLoop df.rows 300 (df.rows.take k) none).1 cid) 0 with e | r
      · rw [hopt] at hentry
        exact Except.noConfusion hentry
      · rw [hopt] at hentry
        exact ⟨r, rfl, (Except.ok.inj hentry).symm⟩

/-- Witness for C3 at the concrete one-row dataframe. -/
theorem c3_witness :
    ∃ labels routes,
      (⟨[((0 : ℚ), (0 : ℚ))], some [0]⟩ : DataFrame).cluster = some labels ∧
      generate_collection_routes ⟨[((0 : ℚ), (0 : ℚ))], none⟩ 1 = .ok routes ∧
      (sortedUnique labels).Sorted (· < ·) ∧
      (∀ c, c ∈ sortedUnique labels ↔ c ∈ labels) ∧
      List.Forall₂ (fun cid entry =>
        ∃ r, optimizeRoute havDistQ
            (clusterMembers (⟨[((0 : ℚ), (0 : ℚ))], some [0]⟩ : DataFrame).rows
              labels cid) 0 = .ok r ∧
          entry = (clusterKey cid, r))
        (sortedUnique labels) routes :=
  c3_orchestrator ⟨[((0 : ℚ), (0 : ℚ))], none⟩ 1 ⟨[((0 : ℚ), (0 : ℚ))], some [0]⟩
    [((0 : ℚ), (0 : ℚ))] cluster_hotspots_eval

/-- C8: the distance primitive is symmetric: for all coordinate pairs A and B,
`haversine(A, B) = haversine(B, A)`. -/
theorem c8_haversine_symmetric (lat1 lon1 lat2 lon2 : ℝ) :
    haversine lat1 lon1 lat2 lon2 = haversine lat2 lon2 lat1 lon1 :=
  haversine_comm lat1 lon1 lat2 lon2

/-- C9: the distance primitive returns 0 on identical points:
`haversine(A, A) = 0` for every coordinate pair A. -/
theorem c9_haversine_identity (lat lon : ℝ) : haversine lat lon lat lon = 0 :=
  haversine_self lat lon

/-- C7: on an empty list of points `optimize_route` returns the empty route
and raises no error, whatever the start index is. -/
theorem c7_empty_input (start_index : ℤ) :
    optimize_route [] start_index = Except.ok [] := rfl

/-- One iteration of the greedy loop appends the selected point. -/
theorem greedyLoop_step {P D : Type} [LinearOrder D] (dist : P → P → D)
    (points : List P) (fuel : ℕ) (visited : List ℤ) (route : List P)
    (last : P) (j : ℕ) (p : P)
    (hlen : visited.length < points.length)
    (hlast : route.getLast? = some last)
    (hsel : selectNext dist points visited last = some j)
    (hget : points.get? j = some p) :
    greedyLoop dist points (fuel + 1) visited route
      = greedyLoop dist points fuel (visited ++ [(j : ℤ)]) (route ++ [p]) := by
  simp [greedyLoop, hlen, hlast, hsel, ← List.get?_eq_getElem?, hget]

/-- Once every point has been visited, the loop stops and returns the route
unchanged, whatever fuel remains. -/
theorem greedyLoop_done {P D : Type} [LinearOrder D] (dist : P → P → D)
    (points : List P) (fuel : ℕ) (visited : List ℤ) (route : List P)
    (h : points.length ≤ visited.length) :
    greedyLoop dist points fuel visited route = .ok route := by
  cases fuel with
  | zero => rfl
  | succ fuel =>
    simp [greedyLoop, show ¬ visited.length < points.length from by omega]

/-- The haversine distance from the north pole to the equator point at
longitude 0 is positive (it equals `6371 * π / 2`). -/
theorem haversine_90_pos : 0 < haversine 90 0 0 0 := by
  rw [haversine_def]
  have hr0 : radians 0 = 0 := by simp [radians]
  have hr90 : radians 90 = Real.pi / 2 := by rw [radians]; ring
  rw [hr0, hr90, Real.cos_pi_div_two]
  have h2 : (0 - Real.pi / 2) / 2 = -(Real.pi / 4) := by ring
  rw [h2, Real.sin_neg, neg_sq, Real.sin_pi_div_four]
  have h3 : ((Real.sqrt 2 / 2) ^ 2 + 0 * Real.cos 0 * Real.sin ((0 - 0) / 2) ^ 2)
      = (Real.sqrt 2 / 2) ^ 2 := by ring
  rw [h3, Real.sqrt_sq (by positivity), ← Real.sin_pi_div_four,
    Real.arcsin_sin (by nlinarith [Real.pi_pos]) (by nlinarith [Real.pi_pos])]
  nlinarith [Real.pi_pos]

/-- Evaluation of the nearest-neighbor scan in the buggy negative-start run:
with `visited = [-1]`, both points are considered unvisited, and the last
stop itself (at distance 0) wins. -/
theorem selectNext_eval :
    selectNext havDist [((0 : ℝ), (0 : ℝ)), ((90 : ℝ), (0 : ℝ))] [-1]
      ((90 : ℝ), (0 : ℝ)) = some 1 := by
  have hBB : havDist ((90 : ℝ), (0 : ℝ)) ((90 : ℝ), (0 : ℝ)) = 0 :=
    haversine_self 90 0
  have hBA : (0 : ℝ) < havDist ((90 : ℝ), (0 : ℝ)) ((0 : ℝ), (0 : ℝ)) :=
    haversine_90_pos
  unfold selectNext
  rw [selectLoop, if_neg (by decide),
    if_pos (WithTop.coe_lt_top (havDist ((90 : ℝ), (0 : ℝ)) ((0 : ℝ), (0 : ℝ))))]
  rw [selectLoop, if_neg (by decide),
    if_pos (by rw [hBB]; exact WithTop.coe_lt_coe.mpr hBA)]
  rfl

/-- Evaluation of the buggy negative-start run: `optimize_route` on the two
distinct points with `start_index = -1` returns the second point twice and
drops the first. -/
theorem c10_route_eval :
    optimize_route [((0 : ℝ), (0 : ℝ)), ((90 : ℝ), (0 : ℝ))] (-1)
      = Except.ok [((90 : ℝ), (0 : ℝ)), ((90 : ℝ), (0 : ℝ))] := by
  unfold optimize_route optimizeRoute
  rw [if_neg (by norm_num)]
  have hpy : pyGet [((0 : ℝ), (0 : ℝ)), ((90 : ℝ), (0 : ℝ))] (-1)
      = some ((90 : ℝ), (0 : ℝ)) := by
    unfold pyGet
    rw [if_neg (by norm_num), if_pos (by norm_num)]
    rfl
  rw [hpy]
  rw [show [((0 : ℝ), (0 : ℝ)), ((90 : ℝ), (0 : ℝ))].length = 1 + 1 from rfl]
  show greedyLoop havDist [((0 : ℝ), (0 : ℝ)), ((90 : ℝ), (0 : ℝ))] (1 + 1) [-1]
      [((90 : ℝ), (0 : ℝ))] = Except.ok [((90 : ℝ), (0 : ℝ)), ((90 : ℝ), (0 : ℝ))]
  rw [greedyLoop_step havDist [((0 : ℝ), (0 : ℝ)), ((90 : ℝ), (0 : ℝ))] 1 [-1]
    [((90 : ℝ), (0 : ℝ))] ((90 : ℝ), (0 : ℝ)) 1 ((90 : ℝ), (0 : ℝ))
    (by norm_num) (by simp) selectNext_eval rfl]
  exact greedyLoop_done havDist _ 1 _ _ (by simp)

/-- C10: there exist a non-empty list of at least two points and a negative
`start_index` in `[-n, -1]` for which `optimize_route` returns without any
error a list that is not a permutation of the input: some input point is
omitted and the point at the corresponding positive index appears twice. -/
theorem c10_negative_start_bug :
    ∃ (points : List (ℝ × ℝ)) (s : ℤ),
      2 ≤ points.length ∧ -(points.length : ℤ) ≤ s ∧ s < 0 ∧
      ∃ r q, optimize_route points s = Except.ok r ∧
        ¬ r.Perm points ∧
        (∃ p, p ∈ points ∧ p ∉ r) ∧
        pyGet points ((points.length : ℤ) + s) = some q ∧
        (r.filter (fun x => decide (x = q))).length = 2 := by
  classical
  have hAB : ((0 : ℝ), (0 : ℝ)) ≠ ((90 : ℝ), (0 : ℝ)) := by
    intro h
    have := congrArg Prod.fst h
    norm_num at this
  refine ⟨[((0 : ℝ), (0 : ℝ)), ((90 : ℝ), (0 : ℝ))], -1, by norm_num,
    by norm_num, by norm_num,
    [((90 : ℝ), (0 : ℝ)), ((90 : ℝ), (0 : ℝ))], ((90 : ℝ), (0 : ℝ)),
    c10_route_eval, ?_, ?_, ?_, ?_⟩
  · intro hperm
    have hmem : ((0 : ℝ), (0 : ℝ)) ∈ [((90 : ℝ), (0 : ℝ)), ((90 : ℝ), (0 : ℝ))] :=
      hperm.mem_iff.mpr (by simp)
    rcases List.mem_cons.mp hmem with h | h
    · exact hAB h
    · rcases List.mem_cons.mp h with h | h
      · exact hAB h
      · simp at h
  · refine ⟨((0 : ℝ), (0 : ℝ)), by simp, ?_⟩
    intro hmem
    rcases List.mem_cons.mp hmem with h | h
    · exact hAB h
    · rcases List.mem_cons.mp h with h | h
      · exact hAB h
      · simp at h
  · unfold pyGet
    rw [if_pos (by norm_num)]
    rfl
  · simp

end EcoVision
